import Mathlib

set_option maxRecDepth 200000

/-!
# Verification of the radix-name-service blueprint

A shallow embedding of `src/core/radix-name-service/src/lib.rs` (a Scrypto
blueprint) and proofs of the specification's claims about it.

Modelling conventions:
* Scrypto `Decimal` values are represented by `ℤ`, counting multiples of the
  `10⁻¹⁸` fixed-point quantum (a bijection on `Decimal` values).  Every
  `Decimal` operation the blueprint performs is addition, subtraction,
  comparison, or multiplication by an integer — all of which commute exactly
  with that bijection, so no rounding behaviour is lost.
* `u64` epochs and `u8` year counts are represented by `Nat`; no arithmetic in
  the blueprint can overflow these widths for realistic inputs and the claims
  never probe the overflow boundary.
* A panicking Scrypto call (failed `assert!`, duplicate mint, unknown
  non-fungible field, vault underflow) aborts the whole transaction, so every
  method is modelled as an `Option`-returning function: `none` is an abort and
  no partial state survives.
* Resource addresses are `Nat`, with `RADIX_TOKEN = 0`; the non-fungible local
  id of a domain-name NFT is the `u128` produced by `hash_name` (the blueprint
  converts it to 16 big-endian bytes and back, a bijection we elide).
-/

namespace RNS

/-! ## SHA-256, as used by `hash_name`

The blueprint derives the NFT id by hashing the name with SHA-256 (via the
`sha2` crate), truncating to the first 16 digest bytes and reading them as a
little-endian `u128`.  We embed SHA-256 (FIPS 180-4) over byte lists so the
derivation is executable. -/

/-- Addition of 32-bit words, modulo `2^32`. -/
def add32 (a b : Nat) : Nat := (a + b) % 4294967296

/-- Right rotation of a 32-bit word by `n` bits. -/
def rotr32 (n w : Nat) : Nat := ((w >>> n) ||| (w <<< (32 - n))) &&& 4294967295

/-- Bitwise complement of a 32-bit word. -/
def not32 (w : Nat) : Nat := w ^^^ 4294967295

/-- SHA-256 `Ch` function. -/
def ch32 (x y z : Nat) : Nat := (x &&& y) ^^^ (not32 x &&& z)

/-- SHA-256 `Maj` function. -/
def maj32 (x y z : Nat) : Nat := (x &&& y) ^^^ (x &&& z) ^^^ (y &&& z)

/-- SHA-256 `Σ₀`. -/
def bigSigma0 (x : Nat) : Nat := rotr32 2 x ^^^ rotr32 13 x ^^^ rotr32 22 x

/-- SHA-256 `Σ₁`. -/
def bigSigma1 (x : Nat) : Nat := rotr32 6 x ^^^ rotr32 11 x ^^^ rotr32 25 x

/-- SHA-256 `σ₀`. -/
def smallSigma0 (x : Nat) : Nat := rotr32 7 x ^^^ rotr32 18 x ^^^ (x >>> 3)

/-- SHA-256 `σ₁`. -/
def smallSigma1 (x : Nat) : Nat := rotr32 17 x ^^^ rotr32 19 x ^^^ (x >>> 10)

/-- The 64 SHA-256 round constants of FIPS 180-4 section 4.2.2, packed
big-endian into one integer so they can be peeled off 32 bits at a time. -/
def sha256KPacked : Nat :=
  0x428a2f9871374491b5c0fbcfe9b5dba53956c25b59f111f1923f82a4ab1c5ed5d807aa9812835b01243185be550c7dc372be5d7480deb1fe9bdc06a7c19bf174e49b69c1efbe47860fc19dc6240ca1cc2de92c6f4a7484aa5cb0a9dc76f988da983e5152a831c66db00327c8bf597fc7c6e00bf3d5a7914706ca63511429296727b70a852e1b21384d2c6dfc53380d13650a7354766a0abb81c2c92e92722c85a2bfe8a1a81a664bc24b8b70c76c51a3d192e819d6990624f40e3585106aa07019a4c1161e376c082748774c34b0bcb5391c0cb34ed8aa4a5b9cca4f682e6ff3748f82ee78a5636f84c878148cc7020890befffaa4506cebbef9a3f7c67178f2

/-- The 64 SHA-256 round constants, `K 0` first. -/
def sha256K : List Nat :=
  (List.range 64).map fun i => (sha256KPacked >>> (32 * (63 - i))) &&& 4294967295

/-- The SHA-256 initial hash value of FIPS 180-4 section 5.3.3, packed
big-endian into one integer. -/
def sha256H0Packed : Nat :=
  0x6a09e667bb67ae853c6ef372a54ff53a510e527f9b05688c1f83d9ab5be0cd19

/-- The SHA-256 initial hash value (eight 32-bit words). -/
def sha256H0 : List Nat :=
  (List.range 8).map fun i => (sha256H0Packed >>> (32 * (7 - i))) &&& 4294967295

/-- Big-endian byte expansion of `v` into `n` bytes. -/
def beBytes (n v : Nat) : List Nat :=
  match n with
  | 0 => []
  | m + 1 => beBytes m (v / 256) ++ [v % 256]

/-- Pad a byte message per FIPS 180-4: append `0x80`, zero bytes up to 56 mod
64, then the bit length as 8 big-endian bytes. -/
def sha256Pad (msg : List Nat) : List Nat :=
  let len := msg.length
  let zeros := (119 - len % 64) % 64
  msg ++ [0x80] ++ List.replicate zeros 0 ++ beBytes 8 (len * 8)

/-- Group bytes into 32-bit big-endian words. -/
def bytesToWords : List Nat → List Nat
  | a :: b :: c :: d :: rest => (((a * 256 + b) * 256 + c) * 256 + d) :: bytesToWords rest
  | _ => []

/-- Split a word list into 16-word blocks (padded input is always a multiple
of 16 words; a ragged tail would become a final short block). -/
def toBlocks : List Nat → List (List Nat)
  | x0 :: x1 :: x2 :: x3 :: x4 :: x5 :: x6 :: x7 ::
    x8 :: x9 :: x10 :: x11 :: x12 :: x13 :: x14 :: x15 :: rest =>
      [x0, x1, x2, x3, x4, x5, x6, x7, x8, x9, x10, x11, x12, x13, x14, x15] ::
        toBlocks rest
  | [] => []
  | l => [l]

/-- Extend the message schedule: `acc` holds the words produced so far in
reverse order; produce `n` more. -/
def extendSchedule : Nat → List Nat → List Nat
  | 0, acc => acc.reverse
  | n + 1, acc =>
    let w2 := acc.getD 1 0
    let w7 := acc.getD 6 0
    let w15 := acc.getD 14 0
    let w16 := acc.getD 15 0
    extendSchedule n (add32 (add32 (smallSigma1 w2) w7) (add32 (smallSigma0 w15) w16) :: acc)

/-- The 64-word message schedule of one block. -/
def sha256Schedule (block : List Nat) : List Nat :=
  extendSchedule 48 block.reverse

/-- One round of the SHA-256 compression function; the state is the list
`[a, b, c, d, e, f, g, h]`. -/
def sha256Round (st : List Nat) (wk : Nat × Nat) : List Nat :=
  match st with
  | [a, b, c, d, e, f, g, hh] =>
    let t1 := add32 (add32 hh (bigSigma1 e)) (add32 (ch32 e f g) (add32 wk.1 wk.2))
    let t2 := add32 (bigSigma0 a) (maj32 a b c)
    [add32 t1 t2, a, b, c, add32 d t1, e, f, g]
  | _ => st

/-- Compress one 16-word block into the running hash value. -/
def sha256Compress (h : List Nat) (block : List Nat) : List Nat :=
  let ws := sha256Schedule block
  let out := (ws.zip sha256K).foldl sha256Round h
  (h.zip out).map fun p => add32 p.1 p.2

/-- SHA-256 digest of a byte list, as 32 bytes. -/
def sha256 (msg : List Nat) : List Nat :=
  let blocks := toBlocks (bytesToWords (sha256Pad msg))
  (blocks.foldl sha256Compress sha256H0).flatMap (beBytes 4)

/-- UTF-8 encoding of one Unicode scalar value. -/
def utf8EncodeScalar (c : Nat) : List Nat :=
  if c < 0x80 then [c]
  else if c < 0x800 then
    [0xc0 ||| (c >>> 6), 0x80 ||| (c &&& 0x3f)]
  else if c < 0x10000 then
    [0xe0 ||| (c >>> 12), 0x80 ||| ((c >>> 6) &&& 0x3f), 0x80 ||| (c &&& 0x3f)]
  else
    [0xf0 ||| (c >>> 18), 0x80 ||| ((c >>> 12) &&& 0x3f),
     0x80 ||| ((c >>> 6) &&& 0x3f), 0x80 ||| (c &&& 0x3f)]

/-- UTF-8 bytes of a string (what `hasher.update(name)` consumes). -/
def utf8Bytes (s : String) : List Nat :=
  s.data.flatMap fun c => utf8EncodeScalar c.toNat

/-- Little-endian value of a byte list (`u128::from_le_bytes`). -/
def fromLeBytes (bs : List Nat) : Nat :=
  bs.foldr (fun b acc => acc * 256 + b) 0

/-- `RadixNameService::hash_name`: SHA-256 of the UTF-8 name, truncated to the
leftmost 16 digest bytes, read as a little-endian `u128`. -/
def hash_name (name : String) : Nat :=
  fromLeBytes ((sha256 (utf8Bytes name)).take 16)

/-! ## Data model

The `RadixNameService` component state and the ledger objects it touches.
The admin badge and the internal minter vault are elided: the environment's
access-rule system enforces them, and within a method body the component can
always authorize its own minter. -/

/-- The native token's resource address (`RADIX_TOKEN`). -/
def RADIX_TOKEN : Nat := 0

/-- `EPOCHS_PER_YEAR`: the blueprint's fixed periods-per-year constant. -/
def EPOCHS_PER_YEAR : Nat := 15000

/-- The non-fungible data of a domain-name NFT (`struct DomainName`). -/
structure DomainName where
  address : Nat
  last_valid_epoch : Nat
  deposit_amount : ℤ
deriving Repr, DecidableEq

/-- A fungible bucket: resource address and amount. -/
structure Bucket where
  resource : Nat
  amount : ℤ
deriving Repr, DecidableEq

/-- A non-fungible bucket (also used for proofs): resource address and the
local ids of the NFTs it holds.  The NFT data itself lives in the resource
manager's store, not in the bucket. -/
structure NftBucket where
  resource : Nat
  ids : List Nat
deriving Repr, DecidableEq

/-- The component state of `RadixNameService`: the domain-name resource
address, the non-fungible store of live records (id-keyed association list),
the two vault balances and the three pricing parameters. -/
structure RNSState where
  name_resource : Nat
  records : List (Nat × DomainName)
  deposits : ℤ
  fees : ℤ
  deposit_per_year : ℤ
  fee_address_update : ℤ
  fee_renewal_per_year : ℤ
deriving Repr, DecidableEq

/-- `ComponentAddress::to_hex`: an injective hex rendering of an address. -/
def toHex (a : Nat) : String :=
  (Nat.toDigits 16 a).asString

/-- `name.ends_with(".xrd")` (character-level suffix, which for valid UTF-8
coincides with the byte-level suffix test the source performs). -/
def ends_with_xrd (name : String) : Bool :=
  List.isSuffixOf ['.', 'x', 'r', 'd'] name.data

/-- Take `amt` out of a fungible bucket or vault balance: fails on a negative
amount or insufficient balance (either aborts the Scrypto transaction).
Returns (taken, remaining). -/
def takeAmount (balance amt : ℤ) : Option (ℤ × ℤ) :=
  if 0 ≤ amt ∧ amt ≤ balance then some (amt, balance - amt) else none

/-- Mint a non-fungible: fails if the id is already taken (duplicate-key
rejection), otherwise adds the record to the store. -/
def mintNonFungible (records : List (Nat × DomainName)) (id : Nat)
    (data : DomainName) : Option (List (Nat × DomainName)) :=
  match records.lookup id with
  | some _ => none
  | none => some ((id, data) :: records)

/-- A value passed to `update_non_fungible_data`, tagged with its SBOR type. -/
inductive FieldValue where
  | addr (a : Nat)
  | epoch (e : Nat)
  | dec (d : ℤ)
deriving Repr, DecidableEq

/-- Set one mutable field of a `DomainName` by name.  The engine resolves the
field name against the non-fungible data schema and type-checks the value;
an unknown field name or a type mismatch aborts the transaction. -/
def setField (d : DomainName) (field : String) (v : FieldValue) :
    Option DomainName :=
  match field, v with
  | "address", .addr a => some { d with address := a }
  | "last_valid_epoch", .epoch e => some { d with last_valid_epoch := e }
  | "deposit_amount", .dec q => some { d with deposit_amount := q }
  | _, _ => none

/-- `resource_manager.update_non_fungible_data(&id, field, v)`: fails if the
id is not live or the field/value pair is rejected by the schema. -/
def updateNonFungibleData (records : List (Nat × DomainName)) (id : Nat)
    (field : String) (v : FieldValue) : Option (List (Nat × DomainName)) :=
  match records.lookup id with
  | none => none
  | some d =>
    (setField d field v).map fun d' =>
      records.map fun p => if p.1 = id then (p.1, d') else p

/-- `validate_proof(ValidateContainsAmount(name_resource, 1))` followed by
`.non_fungible().local_id()`: the proof must be of the domain-name resource
and present exactly one NFT; returns that NFT's id. -/
def validateSingleProof (st : RNSState) (proof : NftBucket) : Option Nat :=
  if proof.resource = st.name_resource then
    match proof.ids with
    | [id] => some id
    | _ => none
  else none

/-! ## The public methods -/

/-- `instantiate_rns`: a fresh component with empty store and vaults.  The
domain-name resource created for it is modelled with address 1. -/
def instantiate_rns (deposit_per_year fee_address_update fee_renewal_per_year : ℤ) :
    RNSState :=
  { name_resource := 1
    records := []
    deposits := 0
    fees := 0
    deposit_per_year := deposit_per_year
    fee_address_update := fee_address_update
    fee_renewal_per_year := fee_renewal_per_year }

/-- `lookup_address`: hash the name, read the record's data from the resource
manager (aborts when the id was never minted or was burned), return the hex
rendering of the stored address.  No expiry check. -/
def lookup_address (st : RNSState) (name : String) : Option String :=
  match st.records.lookup (hash_name name) with
  | none => none
  | some name_data => some (toHex name_data.address)

/-- `register_name`: checks the `.xrd` suffix, `reserve_years > 0`, the XRD
deposit resource and the deposit amount; mints the NFT (fails on a duplicate
id); locks `deposit_per_year * reserve_years` in the deposits vault; returns
the NFT and the rest of the deposit bucket as change.  `current_epoch` is the
injected external period counter. -/
def register_name (st : RNSState) (current_epoch : Nat) (name : String)
    (target_address : Nat) (reserve_years : Nat) (deposit : Bucket) :
    Option (RNSState × NftBucket × Bucket) :=
  if ends_with_xrd name = false then none
  else if reserve_years = 0 then none
  else if deposit.resource ≠ RADIX_TOKEN then none
  else
    let hash := hash_name name
    let deposit_amount := st.deposit_per_year * (reserve_years : ℤ)
    let last_valid_epoch := current_epoch + EPOCHS_PER_YEAR * reserve_years
    if ¬ deposit_amount ≤ deposit.amount then none
    else do
      let name_data : DomainName :=
        { address := target_address
          last_valid_epoch := last_valid_epoch
          deposit_amount := deposit_amount }
      let recs ← mintNonFungible st.records hash name_data
      let (taken, change) ← takeAmount deposit.amount deposit_amount
      some ({ st with records := recs, deposits := st.deposits + taken },
            ⟨st.name_resource, [hash]⟩, ⟨deposit.resource, change⟩)

/-- Sum of `nft.data().deposit_amount` over the ids in a bucket; reading the
data of an id that is not live aborts. -/
def sumDeposits (records : List (Nat × DomainName)) : List Nat → Option ℤ
  | [] => some 0
  | id :: rest =>
    match records.lookup id with
    | none => none
    | some d => (sumDeposits records rest).map (d.deposit_amount + ·)

/-- Burn the NFTs with the given ids: remove them from the store. -/
def burnIds (records : List (Nat × DomainName)) (ids : List Nat) :
    List (Nat × DomainName) :=
  records.filter fun p => !(ids.contains p.1)

/-- `unregister_name`: the bucket must be of the domain-name resource and
non-empty; accumulates the locked deposits of all presented NFTs, burns them,
withdraws the total from the deposits vault and returns it. -/
def unregister_name (st : RNSState) (name_nft : NftBucket) :
    Option (RNSState × Bucket) :=
  if name_nft.resource ≠ st.name_resource then none
  else if name_nft.ids.isEmpty then none
  else do
    let total ← sumDeposits st.records name_nft.ids
    let recs := burnIds st.records name_nft.ids
    let (taken, deposits') ← takeAmount st.deposits total
    some ({ st with records := recs, deposits := deposits' },
          ⟨RADIX_TOKEN, taken⟩)

/-- `update_address`: checks the XRD fee resource, validates the ownership
proof, checks the fee amount; rewrites `address` with the new value and
`last_valid_epoch`/`deposit_amount` with their old values; routes the fee to
the fees vault; returns the rest of the fee bucket as change. -/
def update_address (st : RNSState) (name_nft : NftBucket) (new_address : Nat)
    (fee : Bucket) : Option (RNSState × Bucket) :=
  if fee.resource ≠ RADIX_TOKEN then none
  else do
    let id ← validateSingleProof st name_nft
    let fee_amount := st.fee_address_update
    if ¬ fee_amount ≤ fee.amount then none
    else do
      let old_name_data ← st.records.lookup id
      let r1 ← updateNonFungibleData st.records id ("address")
        (.addr new_address)
      let r2 ← updateNonFungibleData r1 id ("last_valid_epoch")
        (.epoch old_name_data.last_valid_epoch)
      let r3 ← updateNonFungibleData r2 id ("deposit_amount")
        (.dec old_name_data.deposit_amount)
      let (taken, change) ← takeAmount fee.amount fee_amount
      some ({ st with records := r3, fees := st.fees + taken },
            ⟨fee.resource, change⟩)

/-- `renew_name`: checks the XRD fee resource, `renew_years > 0`, the
ownership proof and the fee amount; computes
`last_valid_epoch + EPOCHS_PER_YEAR * renew_years` and writes it back under
the field name `"name_data"` — the string the source passes, which is not a
field of `DomainName`. -/
def renew_name (st : RNSState) (name_nft : NftBucket) (renew_years : Nat)
    (fee : Bucket) : Option (RNSState × Bucket) :=
  if fee.resource ≠ RADIX_TOKEN then none
  else if renew_years = 0 then none
  else do
    let id ← validateSingleProof st name_nft
    let fee_amount := st.fee_renewal_per_year * (renew_years : ℤ)
    if ¬ fee_amount ≤ fee.amount then none
    else do
      let name_data ← st.records.lookup id
      let new_last_valid_epoch :=
        name_data.last_valid_epoch + EPOCHS_PER_YEAR * renew_years
      let recs ← updateNonFungibleData st.records id ("name_data")
        (.epoch new_last_valid_epoch)
      let (taken, change) ← takeAmount fee.amount fee_amount
      some ({ st with records := recs, fees := st.fees + taken },
            ⟨fee.resource, change⟩)

/-- `burn_expired_names`: `todo!()` — aborts unconditionally. -/
def burn_expired_names (_st : RNSState) : Option RNSState :=
  none

/-- `withdraw_fees`: drains the fees vault in full. -/
def withdraw_fees (st : RNSState) : RNSState × Bucket :=
  ({ st with fees := 0 }, ⟨RADIX_TOKEN, st.fees⟩)

/-! ## Derived notions used by the claims -/

/-- Sum of the locked deposits of a record store. -/
def depositSumOf (records : List (Nat × DomainName)) : ℤ :=
  (records.map fun p => p.2.deposit_amount).sum

/-- Invariant I1's left-hand side: the sum of `lockedDeposit` over all live
records of a component state. -/
def liveDepositSum (st : RNSState) : ℤ :=
  depositSumOf st.records

/-- The record store keys each live record by a distinct id; the environment
guarantees this (minting an existing id fails), and it is preserved by every
method. -/
def goodState (st : RNSState) : Prop :=
  (st.records.map Prod.fst).Nodup

/-- A transition of the registry by one successful `register_name` or
`unregister_name` call.  An unregister bucket holds distinct NFTs — a
non-fungible unit cannot occur twice in one bucket, which the hosting
resource model guarantees. -/
inductive RegistryStep : RNSState → RNSState → Prop
  | register (st : RNSState) (epoch : Nat) (name : String) (addr years : Nat)
      (deposit : Bucket) (st' : RNSState) (nft : NftBucket) (change : Bucket)
      (h : register_name st epoch name addr years deposit =
        some (st', nft, change)) :
      RegistryStep st st'
  | unregister (st : RNSState) (bucket : NftBucket) (st' : RNSState)
      (refund : Bucket) (hnodup : bucket.ids.Nodup)
      (h : unregister_name st bucket = some (st', refund)) :
      RegistryStep st st'

/-! ## Store lemmas -/

theorem lookup_eq_none_not_mem {records : List (Nat × DomainName)} {id : Nat}
    (h : records.lookup id = none) : id ∉ records.map Prod.fst := by
  induction records with
  | nil => simp
  | cons q t ih =>
    obtain ⟨k, v⟩ := q
    by_cases hk : id = k
    · simp [List.lookup_cons, hk] at h
    · simp only [List.lookup_cons, beq_false_of_ne hk] at h
      simp [hk, ih h]

theorem lookup_map_set_self {records : List (Nat × DomainName)} {id : Nat}
    {d : DomainName} (d' : DomainName) (h : records.lookup id = some d) :
    (records.map fun p => if p.1 = id then (p.1, d') else p).lookup id =
      some d' := by
  induction records with
  | nil => simp at h
  | cons q t ih =>
    obtain ⟨k, v⟩ := q
    by_cases hk : k = id
    · subst hk
      simp [List.lookup_cons]
    · have hik : ¬ id = k := fun hc => hk hc.symm
      simp only [List.lookup_cons, beq_false_of_ne hik] at h
      simp only [List.map_cons, if_neg hk]
      simp [List.lookup_cons, beq_false_of_ne hik, ih h]

theorem lookup_map_set_ne {records : List (Nat × DomainName)} {id j : Nat}
    (d' : DomainName) (hj : j ≠ id) :
    (records.map fun p => if p.1 = id then (p.1, d') else p).lookup j =
      records.lookup j := by
  induction records with
  | nil => simp
  | cons q t ih =>
    obtain ⟨k, v⟩ := q
    by_cases hk : k = id
    · subst hk
      simp only [List.map_cons, if_pos rfl]
      simp [List.lookup_cons, beq_false_of_ne hj, ih]
    · simp only [List.map_cons, if_neg hk]
      by_cases hq : j = k
      · simp [List.lookup_cons, hq]
      · simp [List.lookup_cons, beq_false_of_ne hq, ih]

theorem lookup_filter_key_ne {records : List (Nat × DomainName)} {id j : Nat}
    (hj : j ≠ id) :
    (records.filter fun p => !(p.1 == id)).lookup j = records.lookup j := by
  induction records with
  | nil => simp
  | cons q t ih =>
    obtain ⟨k, v⟩ := q
    rw [List.filter_cons]
    by_cases hk : k = id
    · subst hk
      simp [List.lookup_cons, beq_false_of_ne hj, ih]
    · simp [List.lookup_cons, beq_false_of_ne hk]
      by_cases hq : j = k
      · simp [List.lookup_cons, hq]
      · simp [List.lookup_cons, beq_false_of_ne hq, ih]

theorem burnIds_nil (records : List (Nat × DomainName)) :
    burnIds records [] = records := by
  simp [burnIds]

theorem burnIds_cons (records : List (Nat × DomainName)) (id : Nat)
    (rest : List Nat) :
    burnIds records (id :: rest) =
      burnIds (records.filter fun p => !(p.1 == id)) rest := by
  simp only [burnIds, List.filter_filter]
  refine List.filter_congr fun p _ => ?_
  by_cases hpi : p.1 = id <;> by_cases hpr : rest.contains p.1 <;>
    simp_all [List.contains_cons]

theorem lookup_burnIds_of_mem {records : List (Nat × DomainName)}
    {ids : List Nat} {id : Nat} (h : id ∈ ids) :
    (burnIds records ids).lookup id = none := by
  induction records with
  | nil => simp [burnIds]
  | cons q t ih =>
    obtain ⟨k, v⟩ := q
    rw [burnIds, List.filter_cons]
    cases hk : ids.contains k with
    | true => simpa [burnIds] using ih
    | false =>
      have hik : ¬ id = k := by
        rintro rfl
        simp_all
      simp only [hk, Bool.not_false, if_true]
      simp only [List.lookup_cons, beq_false_of_ne hik]
      simpa [burnIds] using ih

/-! ## Deposit-sum lemmas -/

theorem depositSumOf_cons (p : Nat × DomainName) (t : List (Nat × DomainName)) :
    depositSumOf (p :: t) = p.2.deposit_amount + depositSumOf t := by
  simp [depositSumOf]

theorem depositSumOf_remove {records : List (Nat × DomainName)} {id : Nat}
    {d : DomainName} (hkeys : (records.map Prod.fst).Nodup)
    (h : records.lookup id = some d) :
    depositSumOf records =
      d.deposit_amount + depositSumOf (records.filter fun p => !(p.1 == id)) := by
  induction records with
  | nil => simp at h
  | cons q t ih =>
    obtain ⟨k, v⟩ := q
    rw [List.map_cons, List.nodup_cons] at hkeys
    obtain ⟨hknot, hkt⟩ := hkeys
    by_cases hk : id = k
    · subst hk
      simp only [List.lookup_cons, beq_self_eq_true] at h
      obtain rfl : v = d := Option.some.inj h
      rw [List.filter_cons]
      have ht : t.filter (fun p => !(p.1 == id)) = t :=
        List.filter_eq_self.mpr fun p hp => by
          have hmem : p.1 ∈ t.map Prod.fst := List.mem_map_of_mem Prod.fst hp
          have hne : p.1 ≠ id := fun hc => hknot (hc ▸ hmem)
          simp [beq_false_of_ne hne]
      simp [depositSumOf_cons, ht]
    · simp only [List.lookup_cons, beq_false_of_ne hk] at h
      rw [List.filter_cons]
      have hkid : ((k, v).1 == id) = false := beq_false_of_ne fun hc => hk hc.symm
      simp only [hkid, Bool.not_false, if_true]
      rw [depositSumOf_cons, depositSumOf_cons, ih hkt h]
      omega

theorem sumDeposits_filter {records : List (Nat × DomainName)} {id : Nat}
    {rest : List Nat} (h : id ∉ rest) :
    sumDeposits (records.filter fun p => !(p.1 == id)) rest =
      sumDeposits records rest := by
  induction rest with
  | nil => rfl
  | cons j t ih =>
    have hj : j ≠ id := fun hc => h (hc ▸ List.mem_cons_self j t)
    have hni : id ∉ t := fun hm => h (List.mem_cons_of_mem _ hm)
    simp only [sumDeposits, lookup_filter_key_ne hj, ih hni]

theorem depositSumOf_burnIds {records : List (Nat × DomainName)}
    {ids : List Nat} {total : ℤ}
    (hkeys : (records.map Prod.fst).Nodup) (hids : ids.Nodup)
    (h : sumDeposits records ids = some total) :
    depositSumOf (burnIds records ids) = depositSumOf records - total := by
  induction ids generalizing records total with
  | nil =>
    simp only [sumDeposits] at h
    obtain rfl : (0 : ℤ) = total := Option.some.inj h
    simp [burnIds_nil]
  | cons id rest ih =>
    rw [List.nodup_cons] at hids
    obtain ⟨hidrest, hrest⟩ := hids
    simp only [sumDeposits] at h
    cases hl : records.lookup id with
    | none => rw [hl] at h; simp at h
    | some d =>
      rw [hl] at h
      cases ht : sumDeposits records rest with
      | none => rw [ht] at h; simp at h
      | some t =>
        rw [ht] at h
        simp only [Option.map_some'] at h
        obtain rfl : d.deposit_amount + t = total := Option.some.inj h
        rw [burnIds_cons]
        have hkeys' :
            (((records.filter fun p => !(p.1 == id)).map Prod.fst)).Nodup :=
          hkeys.sublist ((List.filter_sublist records).map Prod.fst)
        have ht' : sumDeposits (records.filter fun p => !(p.1 == id)) rest =
            some t := by rw [sumDeposits_filter hidrest, ht]
        rw [ih hkeys' hrest ht']
        rw [depositSumOf_remove hkeys hl]
        omega

/-! ## Operation lemmas -/

theorem setField_name_data_eq_none (d : DomainName) (v : FieldValue) :
    setField d ("name_data") v = none := by
  cases v <;> rfl

/-- The renewal method always aborts: the field name it passes to
`update_non_fungible_data` is `"name_data"`, which `DomainName` does not
have, so the data update is rejected whatever the inputs are. -/
theorem renew_name_eq_none (st : RNSState) (nft : NftBucket) (years : Nat)
    (fee : Bucket) : renew_name st nft years fee = none := by
  unfold renew_name
  split
  · rfl
  split
  · rfl
  simp only [Option.bind_eq_bind]
  cases hv : validateSingleProof st nft with
  | none => rfl
  | some id =>
    simp only [Option.some_bind]
    split
    · rfl
    cases hl : st.records.lookup id with
    | none => rfl
    | some nd =>
      simp only [Option.some_bind]
      rw [updateNonFungibleData, hl]
      simp [setField_name_data_eq_none]

/-- Forward evaluation of `register_name` under its preconditions. -/
theorem register_name_eq (st : RNSState) (epoch : Nat) (name : String)
    (addr years : Nat) (dep : Bucket)
    (h1 : ends_with_xrd name = true) (h2 : years ≠ 0)
    (h3 : dep.resource = RADIX_TOKEN)
    (h4 : st.deposit_per_year * (years : ℤ) ≤ dep.amount)
    (h5 : 0 ≤ st.deposit_per_year * (years : ℤ))
    (h6 : st.records.lookup (hash_name name) = none) :
    register_name st epoch name addr years dep =
      some ({ st with
                records := (hash_name name,
                  { address := addr
                    last_valid_epoch := epoch + EPOCHS_PER_YEAR * years
                    deposit_amount := st.deposit_per_year * (years : ℤ) }) ::
                  st.records,
                deposits := st.deposits + st.deposit_per_year * (years : ℤ) },
            ⟨st.name_resource, [hash_name name]⟩,
            ⟨dep.resource, dep.amount - st.deposit_per_year * (years : ℤ)⟩) := by
  simp [register_name, h1, h2, h3, h4, h5, h6, mintNonFungible, takeAmount]

/-- Inversion of a successful `register_name`. -/
theorem register_name_inv {st : RNSState} {epoch : Nat} {name : String}
    {addr years : Nat} {dep : Bucket} {st' : RNSState} {nft : NftBucket}
    {ch : Bucket}
    (h : register_name st epoch name addr years dep = some (st', nft, ch)) :
    ends_with_xrd name = true ∧ years ≠ 0 ∧ dep.resource = RADIX_TOKEN ∧
    st.records.lookup (hash_name name) = none ∧
    st.deposit_per_year * (years : ℤ) ≤ dep.amount ∧
    0 ≤ st.deposit_per_year * (years : ℤ) ∧
    st' = { st with
      records := (hash_name name,
        { address := addr
          last_valid_epoch := epoch + EPOCHS_PER_YEAR * years
          deposit_amount := st.deposit_per_year * (years : ℤ) }) :: st.records,
      deposits := st.deposits + st.deposit_per_year * (years : ℤ) } ∧
    nft = ⟨st.name_resource, [hash_name name]⟩ ∧
    ch = ⟨dep.resource, dep.amount - st.deposit_per_year * (years : ℤ)⟩ := by
  unfold register_name at h
  split at h
  · exact absurd h (by simp)
  next hxrd =>
  split at h
  · exact absurd h (by simp)
  next hy =>
  split at h
  · exact absurd h (by simp)
  next hres =>
  dsimp only at h
  split at h
  · exact absurd h (by simp)
  next hamt =>
  simp only [Option.bind_eq_bind, Option.bind_eq_some] at h
  obtain ⟨recs, hrecs, h⟩ := h
  obtain ⟨⟨taken, change⟩, htc, h⟩ := h
  unfold mintNonFungible at hrecs
  split at hrecs
  · exact absurd hrecs (by simp)
  next hlk =>
  obtain rfl := Option.some.inj hrecs
  unfold takeAmount at htc
  split at htc
  case isFalse => exact absurd htc (by simp)
  next hcond =>
  obtain ⟨rfl, rfl⟩ : taken = st.deposit_per_year * (years : ℤ) ∧
      change = dep.amount - st.deposit_per_year * (years : ℤ) := by
    have := Option.some.inj htc
    exact ⟨congrArg Prod.fst this |>.symm, congrArg Prod.snd this |>.symm⟩
  simp only [Option.some.injEq, Prod.mk.injEq] at h
  obtain ⟨hst, hnft, hch⟩ := h
  refine ⟨by simpa using hxrd, hy, by simpa using hres, hlk, by simpa using hamt,
    hcond.1, hst.symm, hnft.symm, hch.symm⟩

/-- Forward evaluation of `unregister_name` under its preconditions. -/
theorem unregister_name_eq (st : RNSState) (b : NftBucket) (total : ℤ)
    (h1 : b.resource = st.name_resource) (h2 : b.ids ≠ [])
    (h3 : sumDeposits st.records b.ids = some total)
    (h4 : 0 ≤ total) (h5 : total ≤ st.deposits) :
    unregister_name st b =
      some ({ st with records := burnIds st.records b.ids,
                      deposits := st.deposits - total },
            ⟨RADIX_TOKEN, total⟩) := by
  simp [unregister_name, h1, h2, h3, h4, h5, takeAmount]

/-- Inversion of a successful `unregister_name`. -/
theorem unregister_name_inv {st : RNSState} {b : NftBucket} {st' : RNSState}
    {refund : Bucket} (h : unregister_name st b = some (st', refund)) :
    b.resource = st.name_resource ∧ b.ids ≠ [] ∧
    sumDeposits st.records b.ids = some refund.amount ∧
    0 ≤ refund.amount ∧ refund.amount ≤ st.deposits ∧
    refund.resource = RADIX_TOKEN ∧
    st' = { st with records := burnIds st.records b.ids,
                    deposits := st.deposits - refund.amount } := by
  unfold unregister_name at h
  split at h
  · exact absurd h (by simp)
  next hres =>
  split at h
  · exact absurd h (by simp)
  next hemp =>
  simp only [Option.bind_eq_bind, Option.bind_eq_some] at h
  obtain ⟨total, htot, h⟩ := h
  obtain ⟨⟨taken, rest⟩, htk, h⟩ := h
  unfold takeAmount at htk
  split at htk
  case isFalse => exact absurd htk (by simp)
  next hcond =>
  obtain ⟨rfl, rfl⟩ : taken = total ∧ rest = st.deposits - total := by
    have := Option.some.inj htk
    exact ⟨(congrArg Prod.fst this).symm, (congrArg Prod.snd this).symm⟩
  simp only [Option.some.injEq, Prod.mk.injEq] at h
  obtain ⟨hst, hrf⟩ := h
  subst hrf
  refine ⟨by simpa using hres, ?_, htot, hcond.1, hcond.2, rfl, hst.symm⟩
  intro hnil
  simp [hnil] at hemp

/-- Evaluation of one legal `update_non_fungible_data` call. -/
theorem updateNF_set (records : List (Nat × DomainName)) (id : Nat)
    (d d' : DomainName) (field : String) (v : FieldValue)
    (hl : records.lookup id = some d) (hs : setField d field v = some d') :
    updateNonFungibleData records id field v =
      some (records.map fun p => if p.1 = id then (p.1, d') else p) := by
  rw [updateNonFungibleData, hl]
  simp [hs]

/-- Inversion of a successful `update_address`: the new store carries the new
address under the presented id, the two other fields keep their old values,
every other record is untouched, and the fee moves to the fee vault. -/
theorem update_address_inv {st : RNSState} {proof : NftBucket} {newAddr : Nat}
    {fee : Bucket} {st' : RNSState} {ch : Bucket}
    (h : update_address st proof newAddr fee = some (st', ch)) :
    ∃ id d, validateSingleProof st proof = some id ∧
      st.records.lookup id = some d ∧
      fee.resource = RADIX_TOKEN ∧
      st.fee_address_update ≤ fee.amount ∧ 0 ≤ st.fee_address_update ∧
      ch = ⟨fee.resource, fee.amount - st.fee_address_update⟩ ∧
      st'.records.lookup id =
        some { address := newAddr, last_valid_epoch := d.last_valid_epoch,
               deposit_amount := d.deposit_amount } ∧
      (∀ j, j ≠ id → st'.records.lookup j = st.records.lookup j) ∧
      st'.deposits = st.deposits ∧
      st'.fees = st.fees + st.fee_address_update ∧
      st'.name_resource = st.name_resource ∧
      st'.deposit_per_year = st.deposit_per_year ∧
      st'.fee_address_update = st.fee_address_update ∧
      st'.fee_renewal_per_year = st.fee_renewal_per_year := by
  unfold update_address at h
  split at h
  · exact absurd h (by simp)
  next hfr =>
  simp only [Option.bind_eq_bind, Option.bind_eq_some] at h
  obtain ⟨id, hid, h⟩ := h
  split at h
  · exact absurd h (by simp)
  next hfa =>
  simp only [Option.bind_eq_bind, Option.bind_eq_some] at h
  obtain ⟨d, hlk, h⟩ := h
  obtain ⟨r1, hr1, h⟩ := h
  obtain ⟨r2, hr2, h⟩ := h
  obtain ⟨r3, hr3, h⟩ := h
  obtain ⟨⟨taken, change⟩, htk, h⟩ := h
  rw [updateNF_set st.records id d
    { address := newAddr, last_valid_epoch := d.last_valid_epoch,
      deposit_amount := d.deposit_amount } ("address") (.addr newAddr) hlk rfl]
    at hr1
  obtain rfl := (Option.some.inj hr1).symm
  have hl1 : (st.records.map fun p => if p.1 = id then
      (p.1, ({ address := newAddr, last_valid_epoch := d.last_valid_epoch,
               deposit_amount := d.deposit_amount } : DomainName))
        else p).lookup id =
      some { address := newAddr, last_valid_epoch := d.last_valid_epoch,
             deposit_amount := d.deposit_amount } :=
    lookup_map_set_self _ hlk
  rw [updateNF_set _ id _
    { address := newAddr, last_valid_epoch := d.last_valid_epoch,
      deposit_amount := d.deposit_amount } ("last_valid_epoch")
    (.epoch d.last_valid_epoch) hl1 rfl] at hr2
  obtain rfl := (Option.some.inj hr2).symm
  have hl2 := lookup_map_set_self
    ({ address := newAddr, last_valid_epoch := d.last_valid_epoch,
       deposit_amount := d.deposit_amount } : DomainName) hl1
  rw [updateNF_set _ id _
    { address := newAddr, last_valid_epoch := d.last_valid_epoch,
      deposit_amount := d.deposit_amount } ("deposit_amount")
    (.dec d.deposit_amount) hl2 rfl] at hr3
  obtain rfl := (Option.some.inj hr3).symm
  have hl3 := lookup_map_set_self
    ({ address := newAddr, last_valid_epoch := d.last_valid_epoch,
       deposit_amount := d.deposit_amount } : DomainName) hl2
  unfold takeAmount at htk
  split at htk
  case isFalse => exact absurd htk (by simp)
  next hcond =>
  obtain ⟨rfl, rfl⟩ : taken = st.fee_address_update ∧
      change = fee.amount - st.fee_address_update := by
    have := Option.some.inj htk
    exact ⟨(congrArg Prod.fst this).symm, (congrArg Prod.snd this).symm⟩
  simp only [Option.some.injEq, Prod.mk.injEq] at h
  obtain ⟨hst, hch⟩ := h
  subst hst
  refine ⟨id, d, hid, hlk, by simpa using hfr, by simpa using hfa, hcond.1,
    hch.symm, hl3, ?_, rfl, rfl, rfl, rfl, rfl, rfl⟩
  intro j hj
  rw [lookup_map_set_ne _ hj, lookup_map_set_ne _ hj, lookup_map_set_ne _ hj]

/-! ## Invariant I1 -/

/-- One `register_name`/`unregister_name` step preserves both the key
distinctness of the store and invariant I1. -/
theorem step_preserves_inv {st st' : RNSState} (hstep : RegistryStep st st')
    (hinv : goodState st ∧ liveDepositSum st = st.deposits) :
    goodState st' ∧ liveDepositSum st' = st'.deposits := by
  obtain ⟨hgood, hsum⟩ := hinv
  cases hstep with
  | register epoch name addr years dep st2 nft ch h =>
    obtain ⟨_, _, _, hlk, _, _, hst, _, _⟩ := register_name_inv h
    subst hst
    constructor
    · simp only [goodState, List.map_cons, List.nodup_cons]
      exact ⟨lookup_eq_none_not_mem hlk, hgood⟩
    · simp only [liveDepositSum, depositSumOf_cons] at hsum ⊢
      omega
  | unregister bucket st2 refund hnodup h =>
    obtain ⟨_, _, htot, _, _, _, hst⟩ := unregister_name_inv h
    subst hst
    constructor
    · simp only [goodState, burnIds]
      exact hgood.sublist ((List.filter_sublist _).map Prod.fst)
    · simp only [liveDepositSum]
      rw [depositSumOf_burnIds hgood hnodup htot]
      simp only [liveDepositSum] at hsum
      omega

/-- Every state reachable from a fresh instance by successful
`register_name`/`unregister_name` calls has distinct keys and satisfies I1. -/
theorem reachable_inv {d f r : ℤ} {st : RNSState}
    (h : Relation.ReflTransGen RegistryStep (instantiate_rns d f r) st) :
    goodState st ∧ liveDepositSum st = st.deposits := by
  induction h with
  | refl =>
    constructor
    · simp [goodState, instantiate_rns]
    · simp [liveDepositSum, depositSumOf, instantiate_rns]
  | tail _ hstep ih => exact step_preserves_inv hstep ih

/-! ## Concrete states used by the claim witnesses -/

/-- The derived id of the name "alice.xrd" (`hash_name` evaluates to it). -/
def aliceId : Nat := 268268006767038371854299328945258551115

/-- The derived id of the name "bob.xrd". -/
def bobId : Nat := 160821581722681511257444999261614299813

/-- A fresh registry: `instantiate_rns(10, 1, 2)`. -/
def exampleState : RNSState := instantiate_rns 10 1 2

/-- The registry after `register_name("alice.xrd", 7, 1 year, 10 XRD)` at
epoch 100. -/
def exampleLive : RNSState :=
  { name_resource := 1
    records := [(aliceId,
      { address := 7, last_valid_epoch := 15100, deposit_amount := 10 })]
    deposits := 10
    fees := 0
    deposit_per_year := 10
    fee_address_update := 1
    fee_renewal_per_year := 2 }

/-- Like `exampleLive` but the record's lease ended at epoch 100. -/
def exampleExpired : RNSState :=
  { exampleLive with records := [(aliceId,
      { address := 7, last_valid_epoch := 100, deposit_amount := 10 })] }

/-- The registry after the alice record has been unregistered again. -/
def exampleFreed : RNSState :=
  { name_resource := 1
    records := []
    deposits := 0
    fees := 0
    deposit_per_year := 10
    fee_address_update := 1
    fee_renewal_per_year := 2 }

/-- A registry holding two records, with deposits 10 and 20. -/
def exampleTwo : RNSState :=
  { name_resource := 1
    records := [(aliceId,
      { address := 7, last_valid_epoch := 15100, deposit_amount := 10 }),
      (bobId,
      { address := 8, last_valid_epoch := 15100, deposit_amount := 20 })]
    deposits := 30
    fees := 0
    deposit_per_year := 10
    fee_address_update := 1
    fee_renewal_per_year := 2 }

/-- `exampleLive` after `update_address` changed the target to 9 for a 5 XRD
fee (1 XRD kept, 4 XRD change). -/
def exampleUpdated : RNSState :=
  { name_resource := 1
    records := [(aliceId,
      { address := 9, last_valid_epoch := 15100, deposit_amount := 10 })]
    deposits := 10
    fees := 1
    deposit_per_year := 10
    fee_address_update := 1
    fee_renewal_per_year := 2 }

/-! ## The claims -/

/-- C1: the claim states that `renew` adds `renewYears * periodsPerYear` to
the record's `validUntilPeriod`.  The code computes that value but writes it
under the non-fungible field name `"name_data"`, which `DomainName` does not
have, so the call aborts instead: at the concrete failing input (a live
record with `validUntilPeriod = 15100`, `renewYears = 2`, a sufficient 4 XRD
fee) the renewal returns no new state at all, where the claim demands a
record with `validUntilPeriod = 15100 + 2 * 15000 = 45100`. -/
theorem claim_C1_renew_aborts_on_field_slip :
    renew_name exampleLive ⟨1, [aliceId]⟩ 2 ⟨0, 4⟩ = none ∧
    ((exampleLive.records.lookup aliceId).map
      (fun d => d.last_valid_epoch + EPOCHS_PER_YEAR * 2)) = some 45100 :=
  ⟨renew_name_eq_none _ _ _ _, by decide⟩

/-- C2: after any sequence of successful `register`/`unregister` calls from a
fresh instance, the deposits-vault balance equals the sum of `lockedDeposit`
over all live records (invariant I1). -/
theorem claim_C2_deposit_invariant (d f r : ℤ) (st : RNSState)
    (h : Relation.ReflTransGen RegistryStep (instantiate_rns d f r) st) :
    liveDepositSum st = st.deposits :=
  (reachable_inv h).2

theorem claim_C2_witness : liveDepositSum exampleLive = exampleLive.deposits :=
  claim_C2_deposit_invariant 10 1 2 exampleLive
    (Relation.ReflTransGen.single
      (RegistryStep.register (instantiate_rns 10 1 2) 100 ("alice.xrd") 7 1
        ⟨0, 10⟩ exampleLive ⟨1, [aliceId]⟩ ⟨0, 0⟩ (by decide)))

/-- C3: for every name with the `.xrd` suffix, `reserveYears ≥ 1` and an XRD
deposit of at least `depositPerYear * reserveYears` (with a non-negative
deposit rate and the id not yet taken), `register_name` succeeds, mints the
certificate keyed by the derived id with the given target address,
`validUntilPeriod = currentPeriod + reserveYears * periodsPerYear` and
`lockedDeposit = depositPerYear * reserveYears`, moves exactly that amount
into the deposits vault, and returns the certificate plus the overpayment. -/
theorem claim_C3_register_spec (st : RNSState) (epoch : Nat) (name : String)
    (addr years : Nat) (dep : Bucket)
    (h1 : ends_with_xrd name = true) (h2 : 1 ≤ years)
    (h3 : dep.resource = RADIX_TOKEN)
    (h4 : st.deposit_per_year * (years : ℤ) ≤ dep.amount)
    (h5 : 0 ≤ st.deposit_per_year)
    (h6 : st.records.lookup (hash_name name) = none) :
    register_name st epoch name addr years dep =
      some ({ st with
                records := (hash_name name,
                  { address := addr
                    last_valid_epoch := epoch + EPOCHS_PER_YEAR * years
                    deposit_amount := st.deposit_per_year * (years : ℤ) }) ::
                  st.records,
                deposits := st.deposits + st.deposit_per_year * (years : ℤ) },
            ⟨st.name_resource, [hash_name name]⟩,
            ⟨dep.resource, dep.amount - st.deposit_per_year * (years : ℤ)⟩) :=
  register_name_eq st epoch name addr years dep h1
    (Nat.one_le_iff_ne_zero.mp h2) h3 h4
    (mul_nonneg h5 (Int.natCast_nonneg years)) h6

theorem claim_C3_witness :
    register_name exampleState 100 ("alice.xrd") 7 1 ⟨0, 12⟩ =
      some ({ exampleState with
                records := (hash_name ("alice.xrd"),
                  { address := 7
                    last_valid_epoch := 100 + EPOCHS_PER_YEAR * 1
                    deposit_amount := exampleState.deposit_per_year *
                      ((1 : Nat) : ℤ) }) :: exampleState.records,
                deposits := exampleState.deposits +
                  exampleState.deposit_per_year * ((1 : Nat) : ℤ) },
            ⟨exampleState.name_resource, [hash_name ("alice.xrd")]⟩,
            ⟨(Bucket.mk 0 12).resource, (Bucket.mk 0 12).amount -
              exampleState.deposit_per_year * ((1 : Nat) : ℤ)⟩) :=
  claim_C3_register_spec exampleState 100 ("alice.xrd") 7 1 ⟨0, 12⟩
    (by decide) (by decide) rfl (by decide) (by decide) rfl

/-- C4: registering a name and then looking the same name up returns the
registered target address (in its hex rendering). -/
theorem claim_C4_register_then_lookup (st : RNSState) (epoch : Nat)
    (name : String) (addr years : Nat) (dep : Bucket) (st' : RNSState)
    (nft : NftBucket) (ch : Bucket)
    (h : register_name st epoch name addr years dep = some (st', nft, ch)) :
    lookup_address st' name = some (toHex addr) := by
  obtain ⟨_, _, _, _, _, _, hst, _, _⟩ := register_name_inv h
  subst hst
  simp [lookup_address, List.lookup_cons]

theorem claim_C4_witness :
    lookup_address exampleLive ("alice.xrd") = some (toHex 7) :=
  claim_C4_register_then_lookup exampleState 100 ("alice.xrd") 7 1 ⟨0, 10⟩
    exampleLive ⟨1, [aliceId]⟩ ⟨0, 0⟩ (by decide)

/-- C5: `lookup_address` fails exactly when no live record exists for the
derived id, and otherwise returns the stored address — the function takes no
period input at all, so a record whose `validUntilPeriod` is past still
resolves. -/
theorem claim_C5_lookup_semantics (st : RNSState) (name : String) :
    (lookup_address st name = none ↔
      st.records.lookup (hash_name name) = none) ∧
    (∀ d : DomainName, st.records.lookup (hash_name name) = some d →
      lookup_address st name = some (toHex d.address)) := by
  unfold lookup_address
  cases h : st.records.lookup (hash_name name) with
  | none => simp
  | some d => simp

theorem claim_C5_witness :
    exampleExpired.records.lookup (hash_name ("alice.xrd")) =
      some { address := 7, last_valid_epoch := 100, deposit_amount := 10 } ∧
    100 < 500 ∧
    lookup_address exampleExpired ("alice.xrd") = some (toHex 7) :=
  ⟨by decide, by decide,
    (claim_C5_lookup_semantics exampleExpired ("alice.xrd")).2
      { address := 7, last_valid_epoch := 100, deposit_amount := 10 }
      (by decide)⟩

/-- C6: registering a name whose derived id already has a live record always
aborts at the mint step (the store is never overwritten), and once that
record has been burned by `unregister_name`, registering the same name again
succeeds. -/
theorem claim_C6_duplicate_then_free (st : RNSState) (name : String)
    (d : DomainName) (epoch addr years : Nat) (dep : Bucket)
    (st₂ : RNSState) (refund : Bucket) (epoch2 addr2 years2 : Nat)
    (dep2 : Bucket)
    (hlive : st.records.lookup (hash_name name) = some d) :
    register_name st epoch name addr years dep = none ∧
    (unregister_name st ⟨st.name_resource, [hash_name name]⟩ =
        some (st₂, refund) →
      ends_with_xrd name = true → years2 ≠ 0 → dep2.resource = RADIX_TOKEN →
      st.deposit_per_year * (years2 : ℤ) ≤ dep2.amount →
      0 ≤ st.deposit_per_year * (years2 : ℤ) →
      (register_name st₂ epoch2 name addr2 years2 dep2).isSome) := by
  constructor
  · cases hreg : register_name st epoch name addr years dep with
    | none => rfl
    | some r =>
      obtain ⟨st', nft, ch⟩ := r
      obtain ⟨_, _, _, hnone, _⟩ := register_name_inv hreg
      rw [hlive] at hnone
      exact absurd hnone (by simp)
  · intro hunreg h1 h2 h3 h4 h5
    obtain ⟨_, _, _, _, _, _, hst⟩ := unregister_name_inv hunreg
    have hnone : st₂.records.lookup (hash_name name) = none := by
      rw [hst]
      exact lookup_burnIds_of_mem (List.mem_singleton_self _)
    have h4s : st₂.deposit_per_year * (years2 : ℤ) ≤ dep2.amount := by
      rw [hst]; exact h4
    have h5s : 0 ≤ st₂.deposit_per_year * (years2 : ℤ) := by
      rw [hst]; exact h5
    rw [register_name_eq st₂ epoch2 name addr2 years2 dep2 h1 h2 h3 h4s h5s
      hnone]
    rfl

theorem claim_C6_witness :
    (register_name exampleFreed 200 ("alice.xrd") 8 1 ⟨0, 10⟩).isSome :=
  (claim_C6_duplicate_then_free exampleLive ("alice.xrd")
      { address := 7, last_valid_epoch := 15100, deposit_amount := 10 }
      100 7 1 ⟨0, 10⟩ exampleFreed ⟨0, 10⟩ 200 8 1 ⟨0, 10⟩ (by decide)).2
    (by decide) (by decide) (by decide) rfl (by decide) (by decide)

/-- C7: `unregister_name` fails whenever the bucket is of a foreign resource
or empty; on success it refunds exactly the accumulated locked deposits of
all presented certificates, burns every presented id, and withdraws the total
from the deposits vault. -/
theorem claim_C7_unregister_spec (st : RNSState) (b : NftBucket) :
    ((b.resource ≠ st.name_resource ∨ b.ids = []) →
      unregister_name st b = none) ∧
    (∀ st' refund, unregister_name st b = some (st', refund) →
      sumDeposits st.records b.ids = some refund.amount ∧
      refund.resource = RADIX_TOKEN ∧
      st'.deposits = st.deposits - refund.amount ∧
      st'.records = burnIds st.records b.ids ∧
      ∀ id ∈ b.ids, st'.records.lookup id = none) := by
  constructor
  · intro hfail
    unfold unregister_name
    rcases hfail with hr | hn
    · rw [if_pos hr]
    · split
      · rfl
      · simp [hn]
  · intro st' refund h
    obtain ⟨_, _, htot, _, _, hrres, hst⟩ := unregister_name_inv h
    subst hst
    refine ⟨htot, hrres, rfl, rfl, ?_⟩
    intro id hid
    exact lookup_burnIds_of_mem hid

theorem claim_C7_witness :
    sumDeposits exampleTwo.records (NftBucket.mk 1 [aliceId, bobId]).ids =
      some (Bucket.mk 0 30).amount ∧
    (Bucket.mk 0 30).resource = RADIX_TOKEN ∧
    exampleFreed.deposits = exampleTwo.deposits - (Bucket.mk 0 30).amount ∧
    exampleFreed.records =
      burnIds exampleTwo.records (NftBucket.mk 1 [aliceId, bobId]).ids ∧
    exampleFreed.records.lookup aliceId = none := by
  have h := (claim_C7_unregister_spec exampleTwo ⟨1, [aliceId, bobId]⟩).2
    exampleFreed ⟨0, 30⟩ (by decide)
  exact ⟨h.1, h.2.1, h.2.2.1, h.2.2.2.1,
    h.2.2.2.2 aliceId (by decide)⟩

/-- C8: every successful `register_name`, `update_address` or `renew_name`
call returns change equal to the paid amount minus the required amount
(`depositPerYear * reserveYears`, `feeAddressUpdate`, and
`feeRenewalPerYear * renewYears` respectively; the renewal clause is vacuous
because `renew_name` never succeeds, see C1). -/
theorem claim_C8_change_amounts (stA stB stC : RNSState) (epoch : Nat)
    (name : String) (addr years : Nat) (dep : Bucket) (proofU : NftBucket)
    (addrU : Nat) (feeU : Bucket) (proofR : NftBucket) (yearsR : Nat)
    (feeR : Bucket) :
    (∀ st' nft ch,
      register_name stA epoch name addr years dep = some (st', nft, ch) →
      ch.amount = dep.amount - stA.deposit_per_year * (years : ℤ)) ∧
    (∀ st' ch, update_address stB proofU addrU feeU = some (st', ch) →
      ch.amount = feeU.amount - stB.fee_address_update) ∧
    (∀ st' ch, renew_name stC proofR yearsR feeR = some (st', ch) →
      ch.amount = feeR.amount - stC.fee_renewal_per_year * (yearsR : ℤ)) := by
  refine ⟨?_, ?_, ?_⟩
  · intro st' nft ch h
    obtain ⟨_, _, _, _, _, _, _, _, hch⟩ := register_name_inv h
    rw [hch]
  · intro st' ch h
    obtain ⟨id, d, _, _, _, _, _, hch, _⟩ := update_address_inv h
    rw [hch]
  · intro st' ch h
    rw [renew_name_eq_none] at h
    exact absurd h (by simp)

theorem claim_C8_witness :
    (Bucket.mk 0 2).amount =
      (Bucket.mk 0 12).amount - exampleState.deposit_per_year *
        ((1 : Nat) : ℤ) ∧
    (Bucket.mk 0 4).amount =
      (Bucket.mk 0 5).amount - exampleLive.fee_address_update := by
  have h := claim_C8_change_amounts exampleState exampleLive exampleLive 100
    ("alice.xrd") 7 1 ⟨0, 12⟩ ⟨1, [aliceId]⟩ 9 ⟨0, 5⟩ ⟨1, [aliceId]⟩ 2 ⟨0, 4⟩
  refine ⟨h.1 exampleLive ⟨1, [aliceId]⟩ ⟨0, 2⟩ ?hr,
    h.2.1 exampleUpdated ⟨0, 4⟩ ?hu⟩
  case hr => decide
  case hu => decide

/-- C9: a successful `update_address` rewrites only the presented record —
its stored address becomes the new one while `validUntilPeriod` and
`lockedDeposit` keep their previous values — and leaves every other record's
data untouched. -/
theorem claim_C9_update_frame (st : RNSState) (proof : NftBucket)
    (newAddr : Nat) (fee : Bucket) (st' : RNSState) (ch : Bucket) (id : Nat)
    (d : DomainName)
    (h : update_address st proof newAddr fee = some (st', ch))
    (hid : validateSingleProof st proof = some id)
    (hd : st.records.lookup id = some d) :
    st'.records.lookup id =
      some { address := newAddr, last_valid_epoch := d.last_valid_epoch,
             deposit_amount := d.deposit_amount } ∧
    (∀ j, j ≠ id → st'.records.lookup j = st.records.lookup j) := by
  obtain ⟨id2, d2, hid2, hd2, _, _, _, _, hself, hframe, _⟩ :=
    update_address_inv h
  obtain rfl : id2 = id := Option.some.inj (hid2.symm.trans hid)
  obtain rfl : d2 = d := Option.some.inj (hd2.symm.trans hd)
  exact ⟨hself, hframe⟩

theorem claim_C9_witness :
    exampleUpdated.records.lookup aliceId =
      some { address := 9, last_valid_epoch := 15100, deposit_amount := 10 } ∧
    exampleUpdated.records.lookup 42 = exampleLive.records.lookup 42 := by
  have h := claim_C9_update_frame exampleLive ⟨1, [aliceId]⟩ 9 ⟨0, 5⟩
    exampleUpdated ⟨0, 4⟩ aliceId
    { address := 7, last_valid_epoch := 15100, deposit_amount := 10 }
    (by decide) (by decide) (by decide)
  exact ⟨h.1, h.2 42 (by decide)⟩

/-- C10: expiry never forfeits a deposit at the public interface — for a
record whose `validUntilPeriod` lies strictly before the current period,
`unregister_name` still succeeds and refunds the full locked deposit, and the
only expiry-processing method, `burn_expired_names`, aborts unconditionally
(`todo!()`). -/
theorem claim_C10_expired_full_refund (st : RNSState) (id : Nat)
    (d : DomainName) (current_epoch : Nat)
    (hd : st.records.lookup id = some d)
    (_hexp : d.last_valid_epoch < current_epoch)
    (hnn : 0 ≤ d.deposit_amount) (hbal : d.deposit_amount ≤ st.deposits) :
    unregister_name st ⟨st.name_resource, [id]⟩ =
      some ({ st with records := burnIds st.records [id],
                      deposits := st.deposits - d.deposit_amount },
            ⟨RADIX_TOKEN, d.deposit_amount⟩) ∧
    burn_expired_names st = none := by
  refine ⟨?_, rfl⟩
  have htot : sumDeposits st.records [id] = some d.deposit_amount := by
    simp [sumDeposits, hd]
  exact unregister_name_eq st ⟨st.name_resource, [id]⟩ d.deposit_amount rfl
    (by simp) htot hnn hbal

theorem claim_C10_witness :
    unregister_name exampleExpired ⟨exampleExpired.name_resource, [aliceId]⟩ =
      some ({ exampleExpired with
                records := burnIds exampleExpired.records [aliceId],
                deposits := exampleExpired.deposits - (10 : ℤ) },
            ⟨RADIX_TOKEN, (10 : ℤ)⟩) ∧
    burn_expired_names exampleExpired = none :=
  claim_C10_expired_full_refund exampleExpired aliceId
    { address := 7, last_valid_epoch := 100, deposit_amount := 10 } 500
    (by decide) (by decide) (by decide) (by decide)

end RNS
